import Mathlib

/-!
Shallow embedding of the geometric core of the 3DP-Stencil-Generator plugin
(src/3dp-stencil-generator/__init__.py).  Lengths are modelled as exact
rationals (the Python source computes with floats); board coordinates coming
from the host are integers in nanometers, converted to millimeters by `mm`.
Comparisons of the form `sqrt s < t` in the source are expressed via squares
(`0 ≤ t ∧ s < t^2`), which is equivalent over the reals.
-/

/- The Batteries rational-number operations are `@[irreducible]`, which
blocks `decide` on concrete rational computations; restore the ordinary
reducibility locally so that concrete runs of the embedded functions can be
checked by evaluation. -/
set_option allowUnsafeReducibility true
attribute [local semireducible] Rat.mul Rat.add Rat.sub Rat.inv Rat.neg Rat.div

deriving instance DecidableEq for Except

/-- `mm` from the source: nanometer integer coordinate to millimeters. -/
def mm (nm : ℤ) : ℚ := (nm : ℚ) / 1000000

/-- `mm` applied to an already rational (float in the source) value. -/
def mmq (v : ℚ) : ℚ := v / 1000000

/-- Shape kinds of `pcbnew.PCB_SHAPE` drawings used by the plugin
(`SHAPE_T_SEGMENT`, `SHAPE_T_CIRCLE`, `SHAPE_T_RECT`, `SHAPE_T_ARC`);
`other` stands for any further host shape kind the code ignores. -/
inductive ShapeKind
  | segment
  | circle
  | rect
  | arc
  | other
deriving DecidableEq, BEq, Repr

/-- A host drawing record: layer id, shape kind and the raw accessor values
(`GetStart`, `GetEnd`, `GetCenter`, `GetRadius`) in nanometers.  `isShape`
models `isinstance(drawing, pcbnew.PCB_SHAPE)`. -/
structure Drawing where
  layer : ℕ
  kind : ShapeKind
  startX : ℤ
  startY : ℤ
  endX : ℤ
  endY : ℤ
  centerX : ℤ
  centerY : ℤ
  radius : ℤ
  isShape : Bool
deriving DecidableEq, Repr

/-- Host board bounding box (`board.GetBoundingBox()`): center and size in nm. -/
structure BBox where
  centerX : ℤ
  centerY : ℤ
  width : ℤ
  height : ℤ
deriving DecidableEq, Repr

/-- Result record of `calculate_pcb_bounds`: center in nanometer units
(possibly fractional), width/height already converted to millimeters —
exactly the unit mix of the source. -/
structure Bounds where
  center_x : ℚ
  center_y : ℚ
  width : ℚ
  height : ℚ
deriving DecidableEq, Repr

/- Opaque externally-defined layer identifiers (`pcbnew.Edge_Cuts`,
`pcbnew.User_7/8/9`); only their distinctness matters. -/
def Edge_Cuts : ℕ := 44
def User_7 : ℕ := 51
def User_8 : ℕ := 52
def User_9 : ℕ := 53

/-- The match condition of `find_shape_on_layer`: a `PCB_SHAPE` rectangle on
the requested layer. -/
def isRectOn (d : Drawing) (layer : ℕ) : Bool :=
  d.isShape && d.kind == ShapeKind.rect && d.layer == layer

/-- `find_shape_on_layer`: first rectangle drawing on the layer, reported as
`(start.x, start.y, end.x - start.x, end.y - start.y)` — no absolute value,
no corner normalization. -/
def find_shape_on_layer (drawings : List Drawing) (layer : ℕ) :
    Option (ℤ × ℤ × ℤ × ℤ) :=
  (drawings.find? (fun d => isRectOn d layer)).map
    (fun d => (d.startX, d.startY, d.endX - d.startX, d.endY - d.startY))

/-- `find_circles_on_layer`: centers of all circle drawings on the layer. -/
def find_circles_on_layer (drawings : List Drawing) (layer : ℕ) : List (ℤ × ℤ) :=
  (drawings.filter
      (fun d => d.isShape && d.kind == ShapeKind.circle && d.layer == layer)).map
    (fun d => (d.centerX, d.centerY))

/-- The extent points each Edge.Cuts shape contributes to the tier-2
bounding-box scan of `calculate_pcb_bounds` (circle contributes its two
opposite bounding corners; arc contributes center, start and end). -/
def shapePoints (d : Drawing) : List (ℤ × ℤ) :=
  match d.kind with
  | ShapeKind.segment => [(d.startX, d.startY), (d.endX, d.endY)]
  | ShapeKind.rect => [(d.startX, d.startY), (d.endX, d.endY)]
  | ShapeKind.circle =>
      [(d.centerX - d.radius, d.centerY - d.radius),
       (d.centerX + d.radius, d.centerY + d.radius)]
  | ShapeKind.arc =>
      [(d.centerX, d.centerY), (d.startX, d.startY), (d.endX, d.endY)]
  | ShapeKind.other => []

/-- Tier-3 fallback of `calculate_pcb_bounds`: the host board bounding box. -/
def boundsOfBBox (bbox : BBox) : Bounds :=
  ⟨(bbox.centerX : ℚ), (bbox.centerY : ℚ), mm bbox.width, mm bbox.height⟩

/-- `calculate_pcb_bounds`: User.9 rectangle first, else the Edge.Cuts
axis-aligned bounding box, else the board bounding box.  The tier-2 branch
is taken exactly when some Edge.Cuts `PCB_SHAPE` contributed extent points
(the source condition `found_edge_cuts and min_x != float(inf)`). -/
def calculate_pcb_bounds (drawings : List Drawing) (bbox : BBox) : Bounds :=
  match find_shape_on_layer drawings User_9 with
  | some r =>
      ⟨(r.1 : ℚ) + (r.2.2.1 : ℚ) / 2, (r.2.1 : ℚ) + (r.2.2.2 : ℚ) / 2,
        mm r.2.2.1, mm r.2.2.2⟩
  | none =>
      let pts := (drawings.filter
          (fun d => d.layer == Edge_Cuts && d.isShape)).flatMap shapePoints
      match pts with
      | [] => boundsOfBBox bbox
      | p :: rest =>
          let min_x := rest.foldl (fun a q => min a q.1) p.1
          let max_x := rest.foldl (fun a q => max a q.1) p.1
          let min_y := rest.foldl (fun a q => min a q.2) p.2
          let max_y := rest.foldl (fun a q => max a q.2) p.2
          ⟨((min_x : ℚ) + (max_x : ℚ)) / 2, ((min_y : ℚ) + (max_y : ℚ)) / 2,
            mm (max_x - min_x), mm (max_y - min_y)⟩

/-- The frame footprint produced by `generate_frame`: either the explicit
User.8 rectangle or the auto-calculated PCB bounds plus a 5 mm margin. -/
inductive FrameTerm
  | explicitRect (w h : ℚ)
  | autoRect (w h : ℚ)
deriving DecidableEq, Repr

/-- `generate_frame`: User.8 rectangle size used as-is, else bounds + 2·5 mm. -/
def generate_frame (drawings : List Drawing) (bbox : BBox) : FrameTerm :=
  match find_shape_on_layer drawings User_8 with
  | some r => FrameTerm.explicitRect (mm r.2.2.1) (mm r.2.2.2)
  | none =>
      let b := calculate_pcb_bounds drawings bbox
      FrameTerm.autoRect (b.width + 2 * 5) (b.height + 2 * 5)

/-- Re-centering of an alignment-hole center against the User.9 reference
rectangle `r`, as in `generate_alignment_holes`. -/
def recenterHole (r : ℤ × ℤ × ℤ × ℤ) (c : ℤ × ℤ) : ℚ × ℚ :=
  (mmq ((c.1 : ℚ) - ((r.1 : ℚ) + (r.2.2.1 : ℚ) / 2)),
   mmq ((c.2 : ℚ) - ((r.2.1 : ℚ) + (r.2.2.2 : ℚ) / 2)))

/-- `generate_alignment_holes`: one cylinder center per User.7 circle,
re-centered against the User.9 rectangle; if there are no circles, or the
User.9 rectangle is missing, the hole list degrades to empty. -/
def generate_alignment_holes (drawings : List Drawing) : List (ℚ × ℚ) :=
  let holes := find_circles_on_layer drawings User_7
  if holes = [] then []
  else
    match find_shape_on_layer drawings User_9 with
    | none => []
    | some r => holes.map (recenterHole r)

/-! ## OutlinePolygonBuilder (`connect_line_segments`) -/

/-- A 2-D point in millimeters. -/
abbrev Point := ℚ × ℚ

/-- `points_close`: per-coordinate strict tolerance comparison. -/
def points_close (p1 p2 : Point) (tolerance : ℚ) : Bool :=
  decide (|p1.1 - p2.1| < tolerance) && decide (|p1.2 - p2.2| < tolerance)

/-- One scan of the inner `for` loop of `connect_line_segments`: the first
unused segment whose start (preferred) or end lies within tolerance of the
chain's last point, together with the point to append. -/
def findConnection (segments : List (Point × Point)) (used : List ℕ)
    (last : Point) : Option (ℕ × Point) :=
  (List.range segments.length).findSome? (fun i =>
    if i ∈ used then none
    else
      let seg := segments.getD i ((0, 0), (0, 0))
      if points_close last seg.1 (1 / 100) then some (i, seg.2)
      else if points_close last seg.2 (1 / 100) then some (i, seg.1)
      else none)

/-- The `while` loop of `connect_line_segments`, with fuel bounding the
number of iterations (each iteration consumes one fresh segment, so
`segments.length` fuel is enough to reach the loop's own exit condition). -/
def chainLoop (segments : List (Point × Point)) :
    ℕ → List Point → List ℕ → List Point × List ℕ
  | 0, poly, used => (poly, used)
  | fuel + 1, poly, used =>
    if used.length < segments.length then
      match findConnection segments used (poly.getLastD (0, 0)) with
      | some c => chainLoop segments fuel (poly ++ [c.2]) (used ++ [c.1])
      | none => (poly, used)
    else (poly, used)

/-- The chain state after the greedy loop: the polygon built from the first
segment's endpoints and the list of used segment indices. -/
def chainState (segments : List (Point × Point)) : List Point × List ℕ :=
  match segments with
  | [] => ([], [])
  | s0 :: _ => chainLoop segments segments.length [s0.1, s0.2] [0]

/-- Loop closure as tested by the source: more than two chain points and the
last point within tolerance of the first. -/
def chainClosed (segments : List (Point × Point)) : Prop :=
  2 < (chainState segments).1.length ∧
    points_close ((chainState segments).1.getLastD (0, 0))
      ((chainState segments).1.headD (0, 0)) (1 / 100) = true

instance (segments : List (Point × Point)) : Decidable (chainClosed segments) :=
  inferInstanceAs (Decidable (_ ∧ _))

/-- `connect_line_segments`: greedy endpoint chaining; on closure drop the
duplicated closing point, otherwise return the open chain unless fewer than
80% of the segments were consumed (`len(used) < len(segments) * 0.8`,
expressed exactly as `5·used < 4·total`). -/
def connect_line_segments (segments : List (Point × Point)) : List Point :=
  if segments = [] then []
  else if chainClosed segments then (chainState segments).1.dropLast
  else if 5 * (chainState segments).2.length < 4 * segments.length then []
  else (chainState segments).1

/-! ## ClearanceExpander terms of `generate_pcb_outline_from_edge_cuts` -/

/-- An independent circle term of the outline union. -/
structure CircleTerm where
  cx : ℚ
  cy : ℚ
  r : ℚ
deriving DecidableEq, Repr

/-- An independent rectangle term of the outline union. -/
structure RectTerm where
  cx : ℚ
  cy : ℚ
  w : ℚ
  h : ℚ
deriving DecidableEq, Repr

/-- The stitched-polygon term: an outward offset radius applied to the
polygon vertices (the vertices themselves are emitted unchanged). -/
structure PolyTerm where
  offs : ℚ
  pts : List Point
deriving DecidableEq, Repr

/-- Circle branch of `generate_pcb_outline_from_edge_cuts` (clearance `c`
is the global `pcbClearence`, `CX CY` the centering reference in nm). -/
def circle_outline_term (c : ℚ) (CX CY : ℚ) (d : Drawing) : CircleTerm :=
  ⟨mmq ((d.centerX : ℚ) - CX), mmq ((d.centerY : ℚ) - CY), mm d.radius + c⟩

/-- Rectangle branch of `generate_pcb_outline_from_edge_cuts`: centered
coordinates, width/height `|Δ| + 2c`, center at the midpoint. -/
def rect_outline_term (c : ℚ) (CX CY : ℚ) (d : Drawing) : RectTerm :=
  let x1 := mmq ((d.startX : ℚ) - CX)
  let y1 := mmq ((d.startY : ℚ) - CY)
  let x2 := mmq ((d.endX : ℚ) - CX)
  let y2 := mmq ((d.endY : ℚ) - CY)
  ⟨(x1 + x2) / 2, (y1 + y2) / 2, |x2 - x1| + 2 * c, |y2 - y1| + 2 * c⟩

/-- Polygon branch: `offset(r=c) polygon(points=...)` with the stitched
vertices passed through unchanged. -/
def polygon_outline_term (c : ℚ) (pts : List Point) : PolyTerm := ⟨c, pts⟩

/-- Cross-axis width of the thin-rectangle fallback for an unstitched line
segment: fixed 0.1 mm plus twice the clearance. -/
def lineWidth (c : ℚ) : ℚ := 1 / 10 + 2 * c

/-! ## PadProximityGrouper (`find_pad_groups`) and
PadShrinkSolver (`calculate_group_shrink_factor`) -/

/-- An SMD pad record as collected by `generate_pads`: centered position,
size and rotation, all in mm/degrees. -/
structure Pad where
  x : ℚ
  y : ℚ
  width : ℚ
  height : ℚ
  angle : ℚ
deriving DecidableEq, Repr

/-- The per-axis shrink factor returned by `calculate_group_shrink_factor`. -/
structure ShrinkFactor where
  width : ℚ
  height : ℚ
deriving DecidableEq, Repr

/-- The proximity test of `find_pad_groups`: center distance below
`max(dimensions) + 2 · min_mask_width`; `sqrt(dx²+dy²) < threshold` is
expressed via squares. -/
def padsClose (mmw : ℚ) (a b : Pad) : Bool :=
  let dx := b.x - a.x
  let dy := b.y - a.y
  let max_dimension := max (max (max a.width a.height) b.width) b.height
  let threshold := max_dimension + mmw * 2
  decide (0 ≤ threshold ∧ dx ^ 2 + dy ^ 2 < threshold ^ 2)

/-- One scan of the expansion loop in `find_pad_groups`: the first
not-yet-processed pad index close to some member of the current group. -/
def expandOnce (mmw : ℚ) (all_pads : List Pad) (processed : List ℕ)
    (current_group : List ℕ) : Option ℕ :=
  (List.range all_pads.length).find? (fun j =>
    decide (j ∉ processed) &&
      current_group.any (fun gi =>
        padsClose mmw (all_pads.getD gi ⟨0, 0, 0, 0, 0⟩)
          (all_pads.getD j ⟨0, 0, 0, 0, 0⟩)))

/-- The `while changed` frontier expansion of `find_pad_groups`; fuel bounds
the number of added members (each step adds a fresh index, so
`all_pads.length` fuel always reaches the natural exit). -/
def growGroup (mmw : ℚ) (all_pads : List Pad) :
    ℕ → List ℕ → List ℕ → List ℕ × List ℕ
  | 0, processed, current_group => (current_group, processed)
  | fuel + 1, processed, current_group =>
    match expandOnce mmw all_pads processed current_group with
    | none => (current_group, processed)
    | some j =>
        growGroup mmw all_pads fuel (processed ++ [j]) (current_group ++ [j])

/-- `find_pad_groups`: iterative connected-component grouping of pad indices
under the `padsClose` relation, preserving the source's index order. -/
def find_pad_groups (mmw : ℚ) (all_pads : List Pad) : List (List ℕ) :=
  ((List.range all_pads.length).foldl
    (fun acc i =>
      if i ∈ acc.2 then acc
      else
        let g := growGroup mmw all_pads all_pads.length (acc.2 ++ [i]) [i]
        (acc.1 ++ [g.1], g.2))
    (([] : List (List ℕ)), ([] : List ℕ))).1

/-- All unordered pairs of a list in the source's `i < j` enumeration order. -/
def listPairs : List α → List (α × α)
  | [] => []
  | a :: rest => rest.map (fun b => (a, b)) ++ listPairs rest

/-- One pad pair of the constraint loop in `calculate_group_shrink_factor`:
classify the separation (X-dominant / Y-dominant / diagonal), and for each
violated gap lower the corresponding factor to
`(|Δ| - min_mask_width) / (half1 + half2)`.  A zero half-extent sum is the
Python `ZeroDivisionError`, modelled as `Except.error`.
(`distance < 0.001` is expressed via squares.) -/
def applyPair (mmw : ℚ) (st : ℚ × ℚ) (p1 p2 : Pad) : Except Unit (ℚ × ℚ) :=
  let dx := p2.x - p1.x
  let dy := p2.y - p1.y
  if dx ^ 2 + dy ^ 2 < 1 / 1000000 then Except.ok st
  else if |dy| * (3 / 2) < |dx| then
    let s := p1.width / 2 + p2.width / 2
    if |dx| - s < mmw then
      if s = 0 then Except.error ()
      else Except.ok (min st.1 ((|dx| - mmw) / s), st.2)
    else Except.ok st
  else if |dx| * (3 / 2) < |dy| then
    let s := p1.height / 2 + p2.height / 2
    if |dy| - s < mmw then
      if s = 0 then Except.error ()
      else Except.ok (st.1, min st.2 ((|dy| - mmw) / s))
    else Except.ok st
  else
    let sw := p1.width / 2 + p2.width / 2
    let sh := p1.height / 2 + p2.height / 2
    if |dx| - sw < mmw then
      if sw = 0 then Except.error ()
      else
        let mw := min st.1 ((|dx| - mmw) / sw)
        if |dy| - sh < mmw then
          if sh = 0 then Except.error ()
          else Except.ok (mw, min st.2 ((|dy| - mmw) / sh))
        else Except.ok (mw, st.2)
    else
      if |dy| - sh < mmw then
        if sh = 0 then Except.error ()
        else Except.ok (st.1, min st.2 ((|dy| - mmw) / sh))
      else Except.ok st

/-- The pair loop folded over all `i < j` pairs. -/
def pairLoop (mmw : ℚ) : List (Pad × Pad) → ℚ × ℚ → Except Unit (ℚ × ℚ)
  | [], st => Except.ok st
  | pq :: rest, st =>
    match applyPair mmw st pq.1 pq.2 with
    | Except.error e => Except.error e
    | Except.ok st2 => pairLoop mmw rest st2

/-- One pad of the pad-size-floor loop: raise a factor to
`min_pad_size / dimension` whenever the shrunk dimension would fall below
`min_pad_size`; a zero dimension is the Python `ZeroDivisionError`. -/
def clampStep (mps : ℚ) (st : ℚ × ℚ) (p : Pad) : Except Unit (ℚ × ℚ) :=
  if p.width * st.1 < mps then
    if p.width = 0 then Except.error ()
    else
      let mw := max st.1 (mps / p.width)
      if p.height * st.2 < mps then
        if p.height = 0 then Except.error ()
        else Except.ok (mw, max st.2 (mps / p.height))
      else Except.ok (mw, st.2)
  else
    if p.height * st.2 < mps then
      if p.height = 0 then Except.error ()
      else Except.ok (st.1, max st.2 (mps / p.height))
    else Except.ok st

/-- The floor loop folded over the group's pads in order. -/
def clampLoop (mps : ℚ) : List Pad → ℚ × ℚ → Except Unit (ℚ × ℚ)
  | [], st => Except.ok st
  | p :: rest, st =>
    match clampStep mps st p with
    | Except.error e => Except.error e
    | Except.ok st2 => clampLoop mps rest st2

/-- `calculate_group_shrink_factor` on the group's selected pads
(the source first selects `group_pads = [all_pads[i] for i in group_indices]`).
Groups of size ≤ 1 get the identity factor; otherwise the pair constraints
and the pad-size floor are applied, and the result is finally bounded below
by `min_pad_size` itself (the source's `max(min_pad_size, ...)`). -/
def calculate_group_shrink_factor (mmw mps : ℚ) (group_pads : List Pad) :
    Except Unit ShrinkFactor :=
  if group_pads.length ≤ 1 then Except.ok ⟨1, 1⟩
  else
    match pairLoop mmw (listPairs group_pads) (1, 1) with
    | Except.error e => Except.error e
    | Except.ok st =>
      match clampLoop mps group_pads st with
      | Except.error e => Except.error e
      | Except.ok st2 => Except.ok ⟨max mps st2.1, max mps st2.2⟩

/-! ## ArcTessellator (arc branch of `generate_pcb_outline_from_edge_cuts`)

The arc branch computes with floating-point trigonometry; it is modelled
over the reals.  `atan2 y x` is the principal angle of the point `(x, y)`,
i.e. `Complex.arg ⟨x, y⟩`. -/

/-- `math.atan2` over the reals. -/
noncomputable def atan2 (y x : ℝ) : ℝ := Complex.arg ⟨x, y⟩

/-- The tessellation radius: distance from arc center to the arc start. -/
noncomputable def arc_radius (cx cy sx sy : ℝ) : ℝ :=
  Real.sqrt ((sx - cx) ^ 2 + (sy - cy) ^ 2)

/-- `num_segments = max(8, int(abs(end_angle - start_angle)*180/pi/10))` —
computed from the raw angle difference, before the counterclockwise
normalization of `end_angle`. -/
noncomputable def num_segments (start_angle end_angle : ℝ) : ℕ :=
  max 8 (Int.toNat ⌊|end_angle - start_angle| * 180 / Real.pi / 10⌋)

/-- The normalization `if end_angle < start_angle: end_angle += 2*pi`. -/
noncomputable def normalized_end_angle (start_angle end_angle : ℝ) : ℝ :=
  if end_angle < start_angle then end_angle + 2 * Real.pi else end_angle

/-- The i-th tessellated arc point at equal angular steps. -/
noncomputable def arc_point (cx cy radius start_angle end_angle : ℝ)
    (n i : ℕ) : ℝ × ℝ :=
  (cx + radius * Real.cos (start_angle + (end_angle - start_angle) * (i : ℝ) / (n : ℝ)),
   cy + radius * Real.sin (start_angle + (end_angle - start_angle) * (i : ℝ) / (n : ℝ)))

/-- The arc branch of `generate_pcb_outline_from_edge_cuts`: radius from the
start point, angles by `atan2`, `num_segments` from the raw difference,
then `num_segments + 1` points over the normalized sweep. -/
noncomputable def arc_points (cx cy sx sy ex ey : ℝ) : List (ℝ × ℝ) :=
  (List.range (num_segments (atan2 (sy - cy) (sx - cx)) (atan2 (ey - cy) (ex - cx)) + 1)).map
    (arc_point cx cy (arc_radius cx cy sx sy) (atan2 (sy - cy) (sx - cx))
      (normalized_end_angle (atan2 (sy - cy) (sx - cx)) (atan2 (ey - cy) (ex - cx)))
      (num_segments (atan2 (sy - cy) (sx - cx)) (atan2 (ey - cy) (ex - cx))))

/-- Modelled from the spec (§4.2, claim C4): the segment count the spec
prescribes, `max(8, floor(sweepDegrees / 10))` with `sweepDegrees` the
counterclockwise-normalized sweep.  Stated for comparison with the
source-faithful `num_segments`. -/
noncomputable def spec_segment_count (start_angle end_angle : ℝ) : ℕ :=
  max 8 (Int.toNat
    ⌊(normalized_end_angle start_angle end_angle - start_angle) * 180 / Real.pi / 10⌋)

/-! ## Helper lemmas -/

theorem atan2_neg_real {x : ℝ} (hx : x < 0) : atan2 0 x = Real.pi := by
  unfold atan2
  have h : (⟨x, 0⟩ : ℂ) = ((x : ℝ) : ℂ) := by
    apply Complex.ext <;> simp
  rw [h]
  exact Complex.arg_ofReal_of_neg hx

theorem atan2_pos_imag {y : ℝ} (hy : 0 < y) : atan2 y 0 = Real.pi / 2 := by
  unfold atan2
  have h : (⟨0, y⟩ : ℂ) = ((y : ℝ) : ℂ) * Complex.I := by
    apply Complex.ext <;> simp
  rw [h, Complex.arg_real_mul _ hy, Complex.arg_I]

theorem arc_points_length (cx cy sx sy ex ey : ℝ) :
    (arc_points cx cy sx sy ex ey).length =
      num_segments (atan2 (sy - cy) (sx - cx)) (atan2 (ey - cy) (ex - cx)) + 1 := by
  simp [arc_points]

theorem getD_map_range {α : Type} (n i : ℕ) (h : i < n + 1) (f : ℕ → α) (d : α) :
    ((List.range (n + 1)).map f).getD i d = f i := by
  simp [List.getD_eq_getElem?_getD, List.getElem?_map, List.getElem?_range h]

theorem num_segments_ge (a b : ℝ) : 8 ≤ num_segments a b := le_max_left _ _

theorem arc_point_zero (cx cy radius sa ea : ℝ) (n : ℕ) :
    arc_point cx cy radius sa ea n 0 =
      (cx + radius * Real.cos sa, cy + radius * Real.sin sa) := by
  simp [arc_point]

theorem arc_point_last (cx cy radius sa raw : ℝ) (n : ℕ) (hn : n ≠ 0) :
    arc_point cx cy radius sa (normalized_end_angle sa raw) n n =
      (cx + radius * Real.cos raw, cy + radius * Real.sin raw) := by
  have hc : (normalized_end_angle sa raw - sa) * (n : ℝ) / (n : ℝ) =
      normalized_end_angle sa raw - sa := by
    rw [mul_div_assoc, div_self (Nat.cast_ne_zero.2 hn), mul_one]
  unfold arc_point
  rw [hc]
  unfold normalized_end_angle
  by_cases h : raw < sa
  · rw [if_pos h]
    simp [Real.cos_add_two_pi, Real.sin_add_two_pi]
  · rw [if_neg h]
    simp

theorem chainLoop_length_le (segments : List (Point × Point)) :
    ∀ (fuel : ℕ) (poly : List Point) (used : List ℕ),
      poly.length ≤ (chainLoop segments fuel poly used).1.length := by
  intro fuel
  induction fuel with
  | zero => intro poly used; exact le_refl _
  | succ n ih =>
    intro poly used
    unfold chainLoop
    by_cases h : used.length < segments.length
    · rw [if_pos h]
      cases hf : findConnection segments used (poly.getLastD (0, 0)) with
      | none => exact le_refl _
      | some c =>
        calc poly.length ≤ (poly ++ [c.2]).length := by
              simp
          _ ≤ _ := ih (poly ++ [c.2]) (used ++ [c.1])
    · rw [if_neg h]

theorem chainState_two_le (segments : List (Point × Point)) (h : segments ≠ []) :
    2 ≤ (chainState segments).1.length := by
  match segments, h with
  | s0 :: rest, _ =>
    unfold chainState
    have := chainLoop_length_le (s0 :: rest) (s0 :: rest).length [s0.1, s0.2] [0]
    simpa using this

/-! ## Claim theorems -/

/-- C1 (amended): the outline builder returns a polygon iff the greedy chain
closes (more than two points, last within tolerance of first — the
duplicated closing point is then dropped), OR the chain does not close but
at least 80% of the segments were consumed, in which case the open chain is
returned as-is.  No polygon is returned only when the chain fails to close
AND fewer than 80% of the segments were consumed. -/
theorem connect_line_segments_returns_polygon_iff
    (segments : List (Point × Point)) (h : segments ≠ []) :
    connect_line_segments segments ≠ [] ↔
      (chainClosed segments ∨
        4 * segments.length ≤ 5 * (chainState segments).2.length) := by
  unfold connect_line_segments
  rw [if_neg h]
  by_cases hc : chainClosed segments
  · rw [if_pos hc]
    apply iff_of_true _ (Or.inl hc)
    have h1 : 2 < (chainState segments).1.length := hc.1
    rw [← List.length_pos, List.length_dropLast]
    omega
  · rw [if_neg hc]
    by_cases h8 : 5 * (chainState segments).2.length < 4 * segments.length
    · rw [if_pos h8]
      apply iff_of_false (by simp)
      rintro (hcl | hle)
      · exact hc hcl
      · omega
    · rw [if_neg h8]
      apply iff_of_true _ (Or.inr (by omega))
      have := chainState_two_le segments h
      rw [← List.length_pos]
      omega

theorem connect_line_segments_returns_polygon_iff_witness :
    ([((0, 0), (1, 0))] : List (Point × Point)) ≠ [] ∧
      (connect_line_segments [((0, 0), (1, 0))] ≠ [] ↔
        (chainClosed [((0, 0), (1, 0))] ∨
          4 * ([((0, 0), (1, 0))] : List (Point × Point)).length ≤
            5 * (chainState [((0, 0), (1, 0))]).2.length)) :=
  ⟨by decide, connect_line_segments_returns_polygon_iff _ (by decide)⟩

/-- The C1 counterexample pool: a closed unit-square cycle (4 segments)
plus two disconnected extra segments — 6 segments in total, of which the
chain consumes only 4 (66% < 80%). -/
def c1segs : List (Point × Point) :=
  [((0, 0), (1, 0)), ((1, 0), (1, 1)), ((1, 1), (0, 1)), ((0, 1), (0, 0)),
   ((5, 5), (6, 5)), ((7, 7), (8, 7))]

/-- C1 (counterexample): on `c1segs` the chain closes, fewer than 80% of
the segments are consumed, and the builder nevertheless returns the
4-point polygon — refuting "a polygon is returned exactly when at least
80% of all segments were consumed AND the chain closes". -/
theorem connect_line_segments_closure_without_80_percent :
    connect_line_segments c1segs = [(0, 0), (1, 0), (1, 1), (0, 1)] ∧
      5 * (chainState c1segs).2.length < 4 * c1segs.length := by decide

theorem listPairs_mem {α : Type} {l : List α} {pq : α × α}
    (h : pq ∈ listPairs l) : pq.1 ∈ l ∧ pq.2 ∈ l := by
  induction l with
  | nil => simp [listPairs] at h
  | cons a rest ih =>
    unfold listPairs at h
    rw [List.mem_append] at h
    cases h with
    | inl h =>
      obtain ⟨b, hb, hpq⟩ := List.mem_map.1 h
      rw [← hpq]
      exact ⟨List.mem_cons_self _ _, List.mem_cons_of_mem _ hb⟩
    | inr h =>
      obtain ⟨h1, h2⟩ := ih h
      exact ⟨List.mem_cons_of_mem _ h1, List.mem_cons_of_mem _ h2⟩

theorem applyPair_ok (mmw : ℚ) (st : ℚ × ℚ) (p1 p2 : Pad)
    (hw1 : 0 < p1.width) (hw2 : 0 < p2.width)
    (hh1 : 0 < p1.height) (hh2 : 0 < p2.height) :
    ∃ st2, applyPair mmw st p1 p2 = Except.ok st2 := by
  unfold applyPair
  dsimp only
  split_ifs <;>
    first
      | exact ⟨_, rfl⟩
      | (exfalso; linarith [‹p1.width / 2 + p2.width / 2 = 0›])
      | (exfalso; linarith [‹p1.height / 2 + p2.height / 2 = 0›])

theorem pairLoop_ok (mmw : ℚ) :
    ∀ (pairs : List (Pad × Pad)) (st : ℚ × ℚ),
      (∀ pq ∈ pairs, 0 < pq.1.width ∧ 0 < pq.2.width ∧
        0 < pq.1.height ∧ 0 < pq.2.height) →
      ∃ st2, pairLoop mmw pairs st = Except.ok st2 := by
  intro pairs
  induction pairs with
  | nil => exact fun st _ => ⟨st, rfl⟩
  | cons pq rest ih =>
    intro st hp
    obtain ⟨h1, h2, h3, h4⟩ := hp pq (List.mem_cons_self _ _)
    obtain ⟨st1, hst1⟩ := applyPair_ok mmw st pq.1 pq.2 h1 h2 h3 h4
    obtain ⟨st2, hst2⟩ := ih st1 (fun q hq => hp q (List.mem_cons_of_mem _ hq))
    refine ⟨st2, ?_⟩
    unfold pairLoop
    rw [hst1]
    exact hst2

theorem clampStep_ok (mps : ℚ) (st : ℚ × ℚ) (p : Pad)
    (hW : 0 < p.width) (hH : 0 < p.height) :
    ∃ st2, clampStep mps st p = Except.ok st2 ∧ st.1 ≤ st2.1 ∧ st.2 ≤ st2.2 ∧
      mps ≤ p.width * st2.1 ∧ mps ≤ p.height * st2.2 := by
  have key : ∀ w a : ℚ, 0 < w → mps ≤ w * max a (mps / w) := by
    intro w a hw
    calc mps = w * (mps / w) := by field_simp
      _ ≤ w * max a (mps / w) :=
          mul_le_mul_of_nonneg_left (le_max_right _ _) (le_of_lt hw)
  unfold clampStep
  split_ifs with h1 h2 h3 h4 h5 h6
  · exact absurd h2 (ne_of_gt hW)
  · exact absurd h4 (ne_of_gt hH)
  · exact ⟨_, rfl, le_max_left _ _, le_max_left _ _, key _ _ hW, key _ _ hH⟩
  · exact ⟨_, rfl, le_max_left _ _, le_refl _, key _ _ hW, not_lt.1 h3⟩
  · exact absurd h6 (ne_of_gt hH)
  · exact ⟨_, rfl, le_refl _, le_max_left _ _, not_lt.1 h1, key _ _ hH⟩
  · exact ⟨_, rfl, le_refl _, le_refl _, not_lt.1 h1, not_lt.1 h5⟩

theorem clampLoop_ok (mps : ℚ) :
    ∀ (pads : List Pad) (st : ℚ × ℚ),
      (∀ p ∈ pads, 0 < p.width ∧ 0 < p.height) →
      ∃ st2, clampLoop mps pads st = Except.ok st2 ∧ st.1 ≤ st2.1 ∧ st.2 ≤ st2.2 ∧
        ∀ p ∈ pads, mps ≤ p.width * st2.1 ∧ mps ≤ p.height * st2.2 := by
  intro pads
  induction pads with
  | nil => exact fun st _ => ⟨st, rfl, le_refl _, le_refl _, by simp⟩
  | cons p rest ih =>
    intro st hp
    obtain ⟨hW, hH⟩ := hp p (List.mem_cons_self _ _)
    obtain ⟨st1, hst1, m1, m2, b1, b2⟩ := clampStep_ok mps st p hW hH
    obtain ⟨st2, hst2, m3, m4, brest⟩ :=
      ih st1 (fun q hq => hp q (List.mem_cons_of_mem _ hq))
    refine ⟨st2, ?_, le_trans m1 m3, le_trans m2 m4, ?_⟩
    · unfold clampLoop
      rw [hst1]
      exact hst2
    · intro q hq
      rcases List.mem_cons.1 hq with hq | hq
      · subst hq
        exact ⟨le_trans b1 (mul_le_mul_of_nonneg_left m3 (le_of_lt hW)),
          le_trans b2 (mul_le_mul_of_nonneg_left m4 (le_of_lt hH))⟩
      · exact brest q hq

/-- C2 (amended): for a group of pads with positive dimensions and a
positive configured minimum pad size, the shrink solver succeeds and
returns positive (but not necessarily ≤ 1) ratios; a group of size 1 gets
exactly (1, 1); applying the factor never takes a member pad's width or
height below the minimum pad size (a dimension already below the floor is
never reduced); and in groups of size ≥ 2 every resulting dimension is at
least the configured minimum pad size. -/
theorem calculate_group_shrink_factor_positive_and_floor
    (mmw mps : ℚ) (group_pads : List Pad) (hmps : 0 < mps)
    (hpos : ∀ p ∈ group_pads, 0 < p.width ∧ 0 < p.height) :
    ∃ r : ShrinkFactor,
      calculate_group_shrink_factor mmw mps group_pads = Except.ok r ∧
        0 < r.width ∧ 0 < r.height ∧
        (group_pads.length ≤ 1 → r = ⟨1, 1⟩) ∧
        (∀ p ∈ group_pads,
          min mps p.width ≤ p.width * r.width ∧
            min mps p.height ≤ p.height * r.height) ∧
        (1 < group_pads.length → ∀ p ∈ group_pads,
          mps ≤ p.width * r.width ∧ mps ≤ p.height * r.height) := by
  unfold calculate_group_shrink_factor
  by_cases hl : group_pads.length ≤ 1
  · rw [if_pos hl]
    refine ⟨⟨1, 1⟩, rfl, one_pos, one_pos, fun _ => rfl, fun p hp => ?_,
      fun hcon => absurd hcon (not_lt.2 hl)⟩
    rw [mul_one, mul_one]
    exact ⟨min_le_right _ _, min_le_right _ _⟩
  · rw [if_neg hl]
    obtain ⟨st, hst⟩ := pairLoop_ok mmw (listPairs group_pads) (1, 1)
      (fun pq hpq => by
        obtain ⟨h1, h2⟩ := listPairs_mem hpq
        exact ⟨(hpos _ h1).1, (hpos _ h2).1, (hpos _ h1).2, (hpos _ h2).2⟩)
    rw [hst]
    dsimp only
    obtain ⟨st2, hst2, _, _, hfloor⟩ := clampLoop_ok mps group_pads st hpos
    rw [hst2]
    dsimp only
    have hstrong : ∀ p ∈ group_pads,
        mps ≤ p.width * max mps st2.1 ∧ mps ≤ p.height * max mps st2.2 := by
      intro p hp
      obtain ⟨hf1, hf2⟩ := hfloor p hp
      obtain ⟨hW, hH⟩ := hpos p hp
      exact ⟨le_trans hf1
          (mul_le_mul_of_nonneg_left (le_max_right _ _) (le_of_lt hW)),
        le_trans hf2
          (mul_le_mul_of_nonneg_left (le_max_right _ _) (le_of_lt hH))⟩
    refine ⟨⟨max mps st2.1, max mps st2.2⟩, rfl,
      lt_of_lt_of_le hmps (le_max_left _ _),
      lt_of_lt_of_le hmps (le_max_left _ _),
      fun hcon => absurd hcon hl,
      fun p hp => ⟨le_trans (min_le_left _ _) (hstrong p hp).1,
        le_trans (min_le_left _ _) (hstrong p hp).2⟩,
      fun _ => hstrong⟩

theorem calculate_group_shrink_factor_positive_and_floor_witness :
    (0 : ℚ) < 2/5 ∧
      (∃ r : ShrinkFactor,
        calculate_group_shrink_factor (1/5) (2/5) [⟨0, 0, 1, 2, 0⟩, ⟨5, 0, 1, 2, 0⟩] =
            Except.ok r ∧
          0 < r.width ∧ 0 < r.height ∧
          (([⟨0, 0, 1, 2, 0⟩, ⟨5, 0, 1, 2, 0⟩] : List Pad).length ≤ 1 → r = ⟨1, 1⟩) ∧
          (∀ p ∈ ([⟨0, 0, 1, 2, 0⟩, ⟨5, 0, 1, 2, 0⟩] : List Pad),
            min (2/5) p.width ≤ p.width * r.width ∧
              min (2/5) p.height ≤ p.height * r.height) ∧
          (1 < ([⟨0, 0, 1, 2, 0⟩, ⟨5, 0, 1, 2, 0⟩] : List Pad).length →
            ∀ p ∈ ([⟨0, 0, 1, 2, 0⟩, ⟨5, 0, 1, 2, 0⟩] : List Pad),
              (2/5 : ℚ) ≤ p.width * r.width ∧ (2/5 : ℚ) ≤ p.height * r.height)) :=
  ⟨by norm_num,
    calculate_group_shrink_factor_positive_and_floor (1/5) (2/5) _
      (by norm_num) (by decide)⟩

/-- The C2 counterexample group: two 0.2 mm wide pads 0.3 mm apart; both
lie below the 0.4 mm pad-size floor, which the solver restores by an
enlarging ratio of 2. -/
def c2pad0 : Pad := ⟨0, 0, 1/5, 1, 0⟩

def c2pad1 : Pad := ⟨3/10, 0, 1/5, 1, 0⟩

/-- C2 (counterexample): the grouper puts `c2pad0, c2pad1` in one group and
the solver returns widthRatio 2 > 1 — refuting "widthRatio and heightRatio
lie in the interval (0, 1]". -/
theorem calculate_group_shrink_factor_ratio_above_one :
    find_pad_groups (1/5) [c2pad0, c2pad1] = [[0, 1]] ∧
      calculate_group_shrink_factor (1/5) (2/5) [c2pad0, c2pad1] =
        Except.ok ⟨2, 1⟩ ∧
      ¬ ((2 : ℚ) ≤ 1) := by decide

/-- The two 1×1 mm pads of claim C3, 1.1 mm apart along X. -/
def c3pad0 : Pad := ⟨0, 0, 1, 1, 0⟩

def c3pad1 : Pad := ⟨11/10, 0, 1, 1, 0⟩

/-- C3 (confirmed): with minMaskWidth = 0.2 and minPadSize = 0.4, the
grouper places the two pads in a single group, the solver returns
widthRatio 9/10 (heightRatio 1), the resulting edge-to-edge gap
`1.1 − 2·(0.9/2)` is exactly 0.2 mm ≥ 0.2 mm, and the resulting width
0.9 mm stays above the 0.4 mm floor. -/
theorem two_close_pads_group_and_shrink :
    find_pad_groups (1/5) [c3pad0, c3pad1] = [[0, 1]] ∧
      calculate_group_shrink_factor (1/5) (2/5) [c3pad0, c3pad1] =
        Except.ok ⟨9/10, 1⟩ ∧
      (1/5 : ℚ) ≤ (11/10 - 0) - 1 * (9/10) / 2 - 1 * (9/10) / 2 ∧
      (2/5 : ℚ) ≤ 1 * (9/10) := by decide

/-- The C9 groups: two zero-width pads close enough to trigger the
X-dominant gap constraint (division by the zero half-width sum), and two
zero-width pads far apart, hit instead by the pad-size-floor clamp
(division by the zero width). -/
def c9zw0 : Pad := ⟨0, 0, 0, 1, 0⟩

def c9zw1 : Pad := ⟨1/10, 0, 0, 1, 0⟩

def c9zc1 : Pad := ⟨10, 0, 0, 1, 0⟩

/-- C9 (confirmed): the shrink solver is total for groups whose pads all
have positive width and height, while a group of zero-width pads raises a
`ZeroDivisionError` (modelled as `Except.error`) either in the pair
constraint (half-extent sum 0) or in the pad-size-floor clamp (dimension 0). -/
theorem shrink_solver_total_iff_positive_dims :
    (∀ (mmw mps : ℚ) (pads : List Pad),
        (∀ p ∈ pads, 0 < p.width ∧ 0 < p.height) →
        ∃ r, calculate_group_shrink_factor mmw mps pads = Except.ok r) ∧
      calculate_group_shrink_factor (1/5) (2/5) [c9zw0, c9zw1] =
        Except.error () ∧
      calculate_group_shrink_factor (1/5) (2/5) [c9zw0, c9zc1] =
        Except.error () := by
  refine ⟨?_, by decide, by decide⟩
  intro mmw mps pads hpos
  unfold calculate_group_shrink_factor
  by_cases hl : pads.length ≤ 1
  · rw [if_pos hl]
    exact ⟨⟨1, 1⟩, rfl⟩
  · rw [if_neg hl]
    obtain ⟨st, hst⟩ := pairLoop_ok mmw (listPairs pads) (1, 1)
      (fun pq hpq => by
        obtain ⟨h1, h2⟩ := listPairs_mem hpq
        exact ⟨(hpos _ h1).1, (hpos _ h2).1, (hpos _ h1).2, (hpos _ h2).2⟩)
    rw [hst]
    dsimp only
    obtain ⟨st2, hst2, _⟩ := clampLoop_ok mps pads st hpos
    rw [hst2]
    exact ⟨_, rfl⟩

theorem shrink_solver_total_iff_positive_dims_witness :
    (∀ p ∈ ([⟨0, 0, 3, 4, 0⟩] : List Pad), 0 < p.width ∧ 0 < p.height) ∧
      ∃ r, calculate_group_shrink_factor 1 (1/2) [⟨0, 0, 3, 4, 0⟩] =
        Except.ok r :=
  ⟨by decide, shrink_solver_total_iff_positive_dims.1 1 (1/2) _ (by decide)⟩

/-- C5 (amended): bounds resolution is total — whenever neither a User.9
reference rectangle nor any Edge.Cuts extent exists (in particular for an
entirely empty drawing list), the resolver falls through to the tier-3
board-bounding-box fallback and returns a result; no
`InsufficientGeometryError` is ever reported (the source defines no such
error and cannot raise). -/
theorem calculate_pcb_bounds_total_fallback
    (drawings : List Drawing) (bbox : BBox)
    (h9 : find_shape_on_layer drawings User_9 = none)
    (hec : (drawings.filter
        (fun d => d.layer == Edge_Cuts && d.isShape)).flatMap shapePoints = []) :
    calculate_pcb_bounds drawings bbox = boundsOfBBox bbox := by
  unfold calculate_pcb_bounds
  rw [h9]
  dsimp only
  rw [hec]

theorem calculate_pcb_bounds_total_fallback_witness :
    find_shape_on_layer [] User_9 = none ∧
      calculate_pcb_bounds [] ⟨7, 8, 9000000, 10000000⟩ =
        boundsOfBBox ⟨7, 8, 9000000, 10000000⟩ :=
  ⟨by decide, calculate_pcb_bounds_total_fallback [] _ (by decide) (by decide)⟩

/-- C5 (counterexample): on the entirely empty primitive set the resolver
returns the board-bounding-box bounds normally — it does not report an
error instead of producing a plan. -/
theorem calculate_pcb_bounds_empty_returns_bounds :
    calculate_pcb_bounds [] ⟨1, 2, 3000000, 4000000⟩ = ⟨1, 2, 3, 4⟩ := by decide

/-- C6 (amended): when a User.9 reference rectangle exists, the assembler
emits one re-centered alignment-hole center per User.7 circle; when the
circles exist but the User.9 rectangle does not, the hole term degrades to
empty — there is no fallback to the resolved-bounds center — and the
assembler never aborts in either case. -/
theorem generate_alignment_holes_cases (drawings : List Drawing) :
    (∀ r, find_shape_on_layer drawings User_9 = some r →
      generate_alignment_holes drawings =
        (find_circles_on_layer drawings User_7).map (recenterHole r)) ∧
    (find_shape_on_layer drawings User_9 = none →
      generate_alignment_holes drawings = []) := by
  constructor
  · intro r hr
    unfold generate_alignment_holes
    by_cases hh : find_circles_on_layer drawings User_7 = []
    · rw [if_pos hh, hh]
      simp
    · rw [if_neg hh, hr]
  · intro hr
    unfold generate_alignment_holes
    by_cases hh : find_circles_on_layer drawings User_7 = []
    · rw [if_pos hh]
    · rw [if_neg hh, hr]

/-- A User.7 alignment circle at (5, 6) mm. -/
def c6circle : Drawing :=
  ⟨User_7, ShapeKind.circle, 0, 0, 0, 0, 5000000, 6000000, 1000000, true⟩

/-- A User.9 reference rectangle from (0, 0) to (2, 2) mm. -/
def c6rect : Drawing :=
  ⟨User_9, ShapeKind.rect, 0, 0, 2000000, 2000000, 0, 0, 0, true⟩

theorem generate_alignment_holes_cases_witness :
    generate_alignment_holes [c6circle, c6rect] =
      (find_circles_on_layer [c6circle, c6rect] User_7).map
        (recenterHole (0, 0, 2000000, 2000000)) ∧
      generate_alignment_holes [c6circle] = [] :=
  ⟨(generate_alignment_holes_cases [c6circle, c6rect]).1 _ (by decide),
    (generate_alignment_holes_cases [c6circle]).2 (by decide)⟩

/-- C6 (counterexample): one alignment circle but no User.9 rectangle — the
code emits no hole at all instead of re-centering against the resolved
bounds center, refuting "one alignment-hole center per circle, re-centered
against the reference produced by the BoundsResolver fallback chain". -/
theorem alignment_hole_dropped_without_reference :
    find_circles_on_layer [c6circle] User_7 = [(5000000, 6000000)] ∧
      generate_alignment_holes [c6circle] = [] := by decide

/-- C7 (confirmed): with clearance 0 every outline term is emitted with its
clearance-free geometry — circle radius, rectangle center and dimensions,
polygon vertices (offset 0) and the thin-line fallback cross-width are all
unchanged. -/
theorem clearance_zero_is_identity (CX CY : ℚ) (d : Drawing) (pts : List Point) :
    circle_outline_term 0 CX CY d =
      ⟨mmq ((d.centerX : ℚ) - CX), mmq ((d.centerY : ℚ) - CY), mm d.radius⟩ ∧
    rect_outline_term 0 CX CY d =
      ⟨(mmq ((d.startX : ℚ) - CX) + mmq ((d.endX : ℚ) - CX)) / 2,
       (mmq ((d.startY : ℚ) - CY) + mmq ((d.endY : ℚ) - CY)) / 2,
       |mmq ((d.endX : ℚ) - CX) - mmq ((d.startX : ℚ) - CX)|,
       |mmq ((d.endY : ℚ) - CY) - mmq ((d.startY : ℚ) - CY)|⟩ ∧
    polygon_outline_term 0 pts = ⟨0, pts⟩ ∧
    lineWidth 0 = 1 / 10 := by
  refine ⟨?_, ?_, rfl, by norm_num [lineWidth]⟩
  · unfold circle_outline_term
    rw [add_zero]
  · unfold rect_outline_term
    norm_num

/-- C8 (confirmed): for every clearance c ≥ 0 the independent-rectangle
expansion grows width and height by exactly 2c and keeps the center fixed. -/
theorem clearance_rect_grows_two_c (c CX CY : ℚ) (d : Drawing) (hc : 0 ≤ c) :
    (rect_outline_term c CX CY d).w = (rect_outline_term 0 CX CY d).w + 2 * c ∧
    (rect_outline_term c CX CY d).h = (rect_outline_term 0 CX CY d).h + 2 * c ∧
    (rect_outline_term c CX CY d).cx = (rect_outline_term 0 CX CY d).cx ∧
    (rect_outline_term c CX CY d).cy = (rect_outline_term 0 CX CY d).cy := by
  refine ⟨?_, ?_, rfl, rfl⟩ <;> unfold rect_outline_term <;> ring

/-- The 2×3 mm Edge.Cuts rectangle of the C8 instance. -/
def c8rect : Drawing :=
  ⟨Edge_Cuts, ShapeKind.rect, 0, 0, 2000000, 3000000, 0, 0, 0, true⟩

theorem clearance_rect_grows_two_c_witness :
    (0 : ℚ) ≤ 3 / 20 ∧
      ((rect_outline_term (3/20) 0 0 c8rect).w =
          (rect_outline_term 0 0 0 c8rect).w + 2 * (3/20) ∧
        (rect_outline_term (3/20) 0 0 c8rect).h =
          (rect_outline_term 0 0 0 c8rect).h + 2 * (3/20) ∧
        (rect_outline_term (3/20) 0 0 c8rect).cx =
          (rect_outline_term 0 0 0 c8rect).cx ∧
        (rect_outline_term (3/20) 0 0 c8rect).cy =
          (rect_outline_term 0 0 0 c8rect).cy) ∧
      rect_outline_term (3/20) 0 0 c8rect = ⟨1, 3/2, 23/10, 33/10⟩ :=
  ⟨by norm_num, clearance_rect_grows_two_c (3/20) 0 0 c8rect (by norm_num),
    by decide⟩

theorem find?_append_first {α : Type} (p : α → Bool) (pre post : List α) (d : α)
    (hpre : ∀ e ∈ pre, p e = false) (hd : p d = true) :
    (pre ++ d :: post).find? p = some d := by
  induction pre with
  | nil =>
    rw [List.nil_append]
    exact List.find?_cons_of_pos _ hd
  | cons a rest ih =>
    rw [List.cons_append, List.find?_cons_of_neg _
      (by rw [hpre a (List.mem_cons_self _ _)]; exact Bool.false_ne_true)]
    exact ih (fun e he => hpre e (List.mem_cons_of_mem _ he))

/-- C10 (confirmed): the reference-rectangle lookup returns the first
rectangle on the requested layer with size reported as end minus start
componentwise (no absolute value, no corner normalization); consequently a
reference rectangle whose end corner lies below its start corner yields a
negative bounds width (used as-is), and the User.8 frame size is likewise
the raw end-minus-start value. -/
theorem find_shape_on_layer_first_raw_size :
    (∀ (pre post : List Drawing) (d : Drawing) (layer : ℕ),
        (∀ e ∈ pre, isRectOn e layer = false) → isRectOn d layer = true →
        find_shape_on_layer (pre ++ d :: post) layer =
          some (d.startX, d.startY, d.endX - d.startX, d.endY - d.startY)) ∧
      (∀ (pre post : List Drawing) (d : Drawing) (bbox : BBox),
        (∀ e ∈ pre, isRectOn e User_9 = false) → isRectOn d User_9 = true →
        d.endX < d.startX →
        (calculate_pcb_bounds (pre ++ d :: post) bbox).width < 0) ∧
      (∀ (pre post : List Drawing) (d : Drawing) (bbox : BBox),
        (∀ e ∈ pre, isRectOn e User_8 = false) → isRectOn d User_8 = true →
        generate_frame (pre ++ d :: post) bbox =
          FrameTerm.explicitRect (mm (d.endX - d.startX)) (mm (d.endY - d.startY))) := by
  have hfind : ∀ (pre post : List Drawing) (d : Drawing) (layer : ℕ),
      (∀ e ∈ pre, isRectOn e layer = false) → isRectOn d layer = true →
      find_shape_on_layer (pre ++ d :: post) layer =
        some (d.startX, d.startY, d.endX - d.startX, d.endY - d.startY) := by
    intro pre post d layer hpre hd
    unfold find_shape_on_layer
    rw [find?_append_first _ pre post d hpre hd]
    rfl
  refine ⟨hfind, ?_, ?_⟩
  · intro pre post d bbox hpre hd hneg
    unfold calculate_pcb_bounds
    rw [hfind pre post d User_9 hpre hd]
    dsimp only
    unfold mm
    apply div_neg_of_neg_of_pos
    · exact_mod_cast sub_neg.2 hneg
    · norm_num
  · intro pre post d bbox hpre hd
    unfold generate_frame
    rw [hfind pre post d User_8 hpre hd]

/-- A User.9 rectangle drawn "backwards": start (10, 10) mm, end (0, 0) mm. -/
def c10rect9 : Drawing :=
  ⟨User_9, ShapeKind.rect, 10000000, 10000000, 0, 0, 0, 0, 0, true⟩

/-- A User.8 frame rectangle drawn "backwards" the same way. -/
def c10rect8 : Drawing :=
  ⟨User_8, ShapeKind.rect, 10000000, 10000000, 0, 0, 0, 0, 0, true⟩

theorem find_shape_on_layer_first_raw_size_witness :
    find_shape_on_layer [c10rect9] User_9 =
        some (10000000, 10000000, -10000000, -10000000) ∧
      (calculate_pcb_bounds [c10rect9] ⟨0, 0, 0, 0⟩).width < 0 ∧
      generate_frame [c10rect8] ⟨0, 0, 0, 0⟩ =
        FrameTerm.explicitRect (mm (-10000000)) (mm (-10000000)) :=
  ⟨by
      have := find_shape_on_layer_first_raw_size.1 [] [] c10rect9 User_9
        (by decide) (by decide)
      simpa using this,
    find_shape_on_layer_first_raw_size.2.1 [] [] c10rect9 ⟨0, 0, 0, 0⟩
      (by decide) (by decide) (by decide),
    by
      have := find_shape_on_layer_first_raw_size.2.2 [] [] c10rect8 ⟨0, 0, 0, 0⟩
        (by decide) (by decide)
      simpa using this⟩

/-- C4 (amended): for every arc the tessellator emits `num_segments + 1`
points — where `num_segments = max(8, floor(|endAngle − startAngle|·180/π/10))`
is computed from the raw angle difference BEFORE the counterclockwise
normalization — at equal angular steps over the normalized sweep, all at
the radius measured from center to the arc's start point; there are always
at least 9 points, and the first and last emitted points are exactly
(distance 0 < 1e-6) the angle-reconstructed start and end points. -/
theorem arc_tessellation_endpoints (cx cy sx sy ex ey : ℝ) :
    (arc_points cx cy sx sy ex ey).length =
        num_segments (atan2 (sy - cy) (sx - cx)) (atan2 (ey - cy) (ex - cx)) + 1 ∧
      9 ≤ (arc_points cx cy sx sy ex ey).length ∧
      (arc_points cx cy sx sy ex ey).getD 0 (0, 0) =
        (cx + arc_radius cx cy sx sy * Real.cos (atan2 (sy - cy) (sx - cx)),
         cy + arc_radius cx cy sx sy * Real.sin (atan2 (sy - cy) (sx - cx))) ∧
      (arc_points cx cy sx sy ex ey).getD
          (num_segments (atan2 (sy - cy) (sx - cx)) (atan2 (ey - cy) (ex - cx)))
          (0, 0) =
        (cx + arc_radius cx cy sx sy * Real.cos (atan2 (ey - cy) (ex - cx)),
         cy + arc_radius cx cy sx sy * Real.sin (atan2 (ey - cy) (ex - cx))) := by
  refine ⟨arc_points_length cx cy sx sy ex ey, ?_, ?_, ?_⟩
  · rw [arc_points_length]
    have := num_segments_ge (atan2 (sy - cy) (sx - cx)) (atan2 (ey - cy) (ex - cx))
    omega
  · unfold arc_points
    rw [getD_map_range _ 0 (by omega)]
    exact arc_point_zero _ _ _ _ _ _
  · unfold arc_points
    rw [getD_map_range _ _ (by omega)]
    exact arc_point_last _ _ _ _ _ _
      (by
        have := num_segments_ge (atan2 (sy - cy) (sx - cx)) (atan2 (ey - cy) (ex - cx))
        omega)

/-- C4 (counterexample): the quarter-circle arc of radius 5 from the point
at angle π (start (−5, 0)) to the point at angle π/2 (end (0, 5)) — the
code derives `num_segments` from the raw difference |π/2 − π| (9 segments,
10 points), while the spec formula computed from the normalized
counterclockwise sweep 3π/2 prescribes 27 segments, refuting
"segmentCount = max(8, floor(sweepDegrees / 10)) where sweepDegrees is the
counterclockwise-normalized sweep". -/
theorem arc_segment_count_uses_raw_difference :
    num_segments (atan2 0 (-5)) (atan2 5 0) = 9 ∧
      spec_segment_count (atan2 0 (-5)) (atan2 5 0) = 27 ∧
      (arc_points 0 0 (-5) 0 0 5).length = 10 := by
  have hsa : atan2 0 (-5) = Real.pi := atan2_neg_real (by norm_num)
  have hea : atan2 5 0 = Real.pi / 2 := atan2_pos_imag (by norm_num)
  have h9 : num_segments (atan2 0 (-5)) (atan2 5 0) = 9 := by
    rw [hsa, hea]
    unfold num_segments
    have h1 : |Real.pi / 2 - Real.pi| * 180 / Real.pi / 10 = 9 := by
      rw [abs_of_nonpos (by nlinarith [Real.pi_pos])]
      field_simp
      ring
    rw [h1]
    norm_num
    decide
  refine ⟨h9, ?_, ?_⟩
  · rw [hsa, hea]
    unfold spec_segment_count normalized_end_angle
    rw [if_pos (by nlinarith [Real.pi_pos])]
    have h1 : (Real.pi / 2 + 2 * Real.pi - Real.pi) * 180 / Real.pi / 10 = 27 := by
      field_simp
      ring
    rw [h1]
    norm_num
    decide
  · rw [arc_points_length]
    norm_num
    rw [h9]
